import Mathlib

set_option maxRecDepth 200000

/-!
Verification development for a small PLY-based expression language
(`src/main.py`).  The program lexes source text into tokens, parses it
with a yacc grammar into nested Python tuples tagged by strings
(for example a binary operation is a 4-tuple holding the tag `binop`,
the operator string, and the two operand trees), and evaluates the
resulting tree against a symbol table built from `let` assignments.

Python runtime values relevant to the program (integers, strings and
tuples) are embedded as the inductive type `PyVal`, so that the
evaluator fall-through `return expr` (which returns an AST tuple as a
value) and the Python `+` on mismatched types (a `TypeError`) are both
representable.
-/

/-- A Python value as used by this program: an integer, a string, or a
tuple of values.  AST nodes are tuples tagged by strings, exactly as in
the source.  A tuple `(a, b, c)` is represented as the cons-chain
`vpair a (vpair b (vpair c vnil))`; the helper `PyVal.vtuple` below
builds such a chain from a Lean list, so `vtuple [a, b, c]` denotes the
Python tuple `(a, b, c)`.  (A flat single inductive is used rather than
a nested `List` so that all functions below are structurally recursive
and computable by the kernel; the representation of values is
otherwise identical.) -/
inductive PyVal where
  | vint (n : Int)
  | vstr (s : String)
  | vnil
  | vpair (head tail : PyVal)
deriving DecidableEq

/-- The Python tuple with the given elements. -/
def PyVal.vtuple : List PyVal → PyVal
  | [] => .vnil
  | x :: xs => .vpair x (PyVal.vtuple xs)

/-- Python `type(v) == tuple` for the values of this program. -/
def isTupleVal : PyVal → Bool
  | .vnil => true
  | .vpair _ _ => true
  | _ => false

/-- Concatenation of two Python tuples (Python `+` on tuples). -/
def tupleConcat : PyVal → PyVal → PyVal
  | .vnil, b => b
  | .vpair h t, b => .vpair h (tupleConcat t b)
  | a, _ => a

/-- Errors the evaluator can raise, mirroring the Python exceptions:
`NameError` (with its message string), `TypeError` from `+`/`-` on
incompatible operands, and `IndexError` from out-of-range tuple
indexing in `populateSymbols`. -/
inductive EvalErr where
  | nameError (msg : String)
  | typeError
  | indexError
deriving DecidableEq

/-- Decidable equality for `Except` results, so that concrete runs of
the evaluator can be compared by `decide`. -/
instance exceptDecidableEq {e a : Type} [DecidableEq e] [DecidableEq a] :
    DecidableEq (Except e a) := fun x y =>
  match x, y with
  | .ok u, .ok v =>
    if h : u = v then isTrue (congrArg Except.ok h)
    else isFalse fun hh => h (Except.ok.inj hh)
  | .error u, .error v =>
    if h : u = v then isTrue (congrArg Except.error h)
    else isFalse fun hh => h (Except.error.inj hh)
  | .ok _, .error _ => isFalse fun hh => Except.noConfusion hh
  | .error _, .ok _ => isFalse fun hh => Except.noConfusion hh

/-- The symbol table: a Python dict from names to values, modelled as an
association list in insertion order (Python dicts preserve insertion
order; assignment to an existing key updates in place).  Python `==`
on the keys coincides with equality of the represented values. -/
def SymTable := List (PyVal × PyVal)

/-- Dict lookup, `symbol_table[key]` / `key in symbol_table`. -/
def dictLookup : SymTable → PyVal → Option PyVal
  | [], _ => none
  | (k, v) :: rest, key => if k = key then some v else dictLookup rest key

/-- Dict assignment `symbol_table[key] = v`: updates the existing entry
for `key` in place if present, otherwise appends a new entry. -/
def dictAssign : SymTable → PyVal → PyVal → SymTable
  | [], key, v => [(key, v)]
  | (k, w) :: rest, key, v =>
    if k = key then (k, v) :: rest else (k, w) :: dictAssign rest key v

/-- Python `+` on the values of this program: integer addition, string
concatenation, tuple concatenation; anything mixed raises `TypeError`. -/
def pyAdd (a b : PyVal) : Except EvalErr PyVal :=
  match a, b with
  | .vint x, .vint y => .ok (.vint (x + y))
  | .vstr x, .vstr y => .ok (.vstr (x ++ y))
  | _, _ =>
    if isTupleVal a && isTupleVal b then .ok (tupleConcat a b) else .error .typeError

/-- Python `-` on the values of this program: integer subtraction only;
anything else raises `TypeError`. -/
def pySub : PyVal → PyVal → Except EvalErr PyVal
  | .vint a, .vint b => .ok (.vint (a - b))
  | _, _ => .error .typeError

/-- The message of the `NameError` raised for an unbound name, built as
in the source from the looked-up key (`\x27` is the ASCII apostrophe
that the Python f-string places around the name).  Parser-produced
`name` nodes always carry a string key; the rendering of other key
shapes (never produced by the parser) is not modelled beyond a plain
fallback. -/
def nameErrorMessage : PyVal → String
  | .vstr s => "Error: Symbol \x27" ++ s ++ "\x27 has not been assigned a value"
  | .vint n => "Error: Symbol \x27" ++ toString n ++ "\x27 has not been assigned a value"
  | _ => "Error: Symbol \x27" ++ "tuple" ++ "\x27 has not been assigned a value"

/-- `evaluateExpression` from the source, translated branch for branch:
only `binop` tuples with operator `+` or `-`, `name` tuples, and
`number` tuples are handled; every other value — including `binop`
tuples with operator `*` or `/`, `unary` tuples and `grouped` tuples —
falls through to the trailing `return expr`, which returns the node
itself unchanged.  Tuple arities follow the parser output (`binop`
nodes have exactly four fields, `name`/`number` two); the Python
`IndexError` on malformed shorter tuples, which the parser never
produces, is not modelled. -/
def evaluateExpression : PyVal → SymTable → Except EvalErr PyVal
  | .vpair (.vstr "binop") (.vpair (.vstr "+") (.vpair l (.vpair r .vnil))), st =>
    match evaluateExpression l st with
    | .error e => .error e
    | .ok a =>
      match evaluateExpression r st with
      | .error e => .error e
      | .ok b => pyAdd a b
  | .vpair (.vstr "binop") (.vpair (.vstr "-") (.vpair l (.vpair r .vnil))), st =>
    match evaluateExpression l st with
    | .error e => .error e
    | .ok a =>
      match evaluateExpression r st with
      | .error e => .error e
      | .ok b => pySub a b
  | .vpair (.vstr "name") (.vpair key .vnil), st =>
    match dictLookup st key with
    | some v => .ok v
    | none => .error (.nameError (nameErrorMessage key))
  | .vpair (.vstr "number") (.vpair v .vnil), _ => .ok v
  | expr, _ => .ok expr

/-- The loop of `populateSymbols`: the source iterates over the flat
assignment tuple `(name1, value1, name2, value2, ...)` taking even
indices as names and the following odd index as the value expression;
this is the same traversal two elements at a time.  An odd-length tuple
makes the source `symbol_list[i + 1]` raise `IndexError`, and a
non-tuple argument makes `len(symbol_list)` raise `TypeError`. -/
def populateSymbolsLoop : PyVal → SymTable → Except EvalErr SymTable
  | .vnil, table => .ok table
  | .vpair _ .vnil, _ => .error .indexError
  | .vpair name (.vpair value rest), table =>
    match evaluateExpression value table with
    | .error e => .error e
    | .ok v => populateSymbolsLoop rest (dictAssign table name v)
  | _, _ => .error .typeError

/-- `populateSymbols` from the source: builds the symbol table from the
flat assignment tuple, starting from an empty dict. -/
def populateSymbols (symbol_list : PyVal) : Except EvalErr SymTable :=
  populateSymbolsLoop symbol_list []

/-- `evaluate` from the source: a program tuple tagged `assignments`
carries the flat assignment tuple and the result expression; any other
tree is evaluated directly against an empty table (the parser only ever
returns tuples, so the indexing `ast[0]` never fails). -/
def evaluate : PyVal → Except EvalErr PyVal
  | .vpair (.vstr "assignments") (.vpair symbol_list (.vpair result .vnil)) =>
    match populateSymbols symbol_list with
    | .error e => .error e
    | .ok table => evaluateExpression result table
  | ast => evaluateExpression ast []

/-- A lexer token.  `NUMBER` carries the parsed integer (`int(t.value)`
in the source), `NAME` carries the matched identifier text; the other
kinds correspond to the single-character rules and the reserved word
`let`. -/
inductive Token where
  | tLET
  | tPLUS
  | tMINUS
  | tTIMES
  | tDIVIDE
  | tLPAREN
  | tRPAREN
  | tEQUALS
  | tSEMICOLON
  | tNAME (s : String)
  | tNUMBER (n : Int)
deriving DecidableEq

/-- `t_NAME` from the source: an identifier run becomes a `NAME` token
unless the matched text is `let` or `LET`, in which case the token type
is rewritten to `LET`. -/
def t_NAME (s : String) : Token :=
  if s = "let" ∨ s = "LET" then Token.tLET else Token.tNAME s

/-- An ASCII decimal digit, the characters matched by the `NUMBER` rule
of the source. -/
def isDigitChar (c : Char) : Bool :=
  '0' ≤ c && c ≤ '9'

/-- A character that can start an identifier per the `NAME` rule of
the source. -/
def isNameStart (c : Char) : Bool :=
  ('a' ≤ c && c ≤ 'z') || ('A' ≤ c && c ≤ 'Z') || c == '_'

/-- A character that can continue an identifier per the `NAME` rule of
the source. -/
def isNameChar (c : Char) : Bool :=
  isNameStart c || isDigitChar c

/-- The single-character operator and punctuation rules of the lexer. -/
def opToken (c : Char) : Option Token :=
  if c == '+' then some Token.tPLUS
  else if c == '-' then some Token.tMINUS
  else if c == '*' then some Token.tTIMES
  else if c == '/' then some Token.tDIVIDE
  else if c == '(' then some Token.tLPAREN
  else if c == ')' then some Token.tRPAREN
  else if c == '=' then some Token.tEQUALS
  else if c == ';' then some Token.tSEMICOLON
  else none

/-- `int(...)` on a run of decimal digits. -/
def numValue (digits : List Char) : Int :=
  Int.ofNat (digits.foldl (fun acc c => acc * 10 + (c.toNat - '0'.toNat)) 0)

/-- A character matched by no lexer rule: not ignored whitespace, not a
digit, not an identifier start, not a newline, and not one of the
single-character operators.  Such a character triggers `t_error`. -/
def illegalChar (c : Char) : Bool :=
  !(c == ' ' || c == '\t') && !isDigitChar c && !isNameStart c &&
    !(c == '\n') && (opToken c).isNone

/-- The outcome of lexing: the token list, plus the characters reported
by `t_error` (which prints the offending character and skips it). -/
structure LexResult where
  tokens : List Token
  errors : List Char
deriving DecidableEq

/-- One pass of the lexer over the remaining characters, following the
rules of the source: spaces and tabs are ignored; a maximal digit run
becomes a `NUMBER`; a maximal identifier run becomes a `NAME` (or `LET`
via `t_NAME`); newline runs are consumed without a token; a
single-character operator yields its token; any other character is
reported as illegal, skipped (`t.lexer.skip(1)`), and lexing resumes.
The rules have disjoint leading characters, so trying them in this
order matches the master-regex order PLY builds.  The `fuel` argument
only forces termination: every step consumes at least one character, so
starting the loop with the length of the input as fuel (as `lexString` does)
the fuel never runs out before the input is exhausted. -/
def lexLoop : Nat → List Char → LexResult
  | _, [] => ⟨[], []⟩
  | 0, _ => ⟨[], []⟩
  | fuel + 1, c :: cs =>
    if c == ' ' || c == '\t' then lexLoop fuel cs
    else if isDigitChar c then
      let r := lexLoop fuel (cs.dropWhile isDigitChar)
      ⟨Token.tNUMBER (numValue (c :: cs.takeWhile isDigitChar)) :: r.tokens, r.errors⟩
    else if isNameStart c then
      let r := lexLoop fuel (cs.dropWhile isNameChar)
      ⟨t_NAME (String.mk (c :: cs.takeWhile isNameChar)) :: r.tokens, r.errors⟩
    else if c == '\n' then lexLoop fuel (cs.dropWhile (fun d => d == '\n'))
    else
      match opToken c with
      | some t =>
        let r := lexLoop fuel cs
        ⟨t :: r.tokens, r.errors⟩
      | none =>
        let r := lexLoop fuel cs
        ⟨r.tokens, c :: r.errors⟩

/-- Lexing a whole source string. -/
def lexString (s : String) : LexResult :=
  lexLoop s.data.length s.data

mutual

/-- The grammar rule `expression : term PLUS term | term MINUS term |
term`.  After a first `term`, a following `PLUS`/`MINUS` must be
consumed (it can never follow a complete expression in this grammar, so
the LALR parser always shifts it); otherwise the bare `term` is the
expression.  Note the rule allows at most one operator application, as
written in the source grammar.  Builds the 4-tuple tagged `binop` as in the
source actions.  The `fuel` argument only forces termination; the
top-level entry point supplies more than any input can consume. -/
def parseExpression : Nat → List Token → Option (PyVal × List Token)
  | 0, _ => none
  | fuel + 1, ts =>
    match parseTerm fuel ts with
    | none => none
    | some (t1, rest) =>
      match rest with
      | Token.tPLUS :: rest2 =>
        match parseTerm fuel rest2 with
        | none => none
        | some (t2, rest3) => some (.vtuple [.vstr "binop", .vstr "+", t1, t2], rest3)
      | Token.tMINUS :: rest2 =>
        match parseTerm fuel rest2 with
        | none => none
        | some (t2, rest3) => some (.vtuple [.vstr "binop", .vstr "-", t1, t2], rest3)
      | _ => some (t1, rest)

/-- The grammar rule `term : factor TIMES factor | factor DIVIDE factor
| factor`, with the same single-application shape as `expression`. -/
def parseTerm : Nat → List Token → Option (PyVal × List Token)
  | 0, _ => none
  | fuel + 1, ts =>
    match parseFactor fuel ts with
    | none => none
    | some (f1, rest) =>
      match rest with
      | Token.tTIMES :: rest2 =>
        match parseFactor fuel rest2 with
        | none => none
        | some (f2, rest3) => some (.vtuple [.vstr "binop", .vstr "*", f1, f2], rest3)
      | Token.tDIVIDE :: rest2 =>
        match parseFactor fuel rest2 with
        | none => none
        | some (f2, rest3) => some (.vtuple [.vstr "binop", .vstr "/", f1, f2], rest3)
      | _ => some (f1, rest)

/-- The grammar rule `factor : NUMBER | NAME | PLUS factor | MINUS
factor | LPAREN expression RPAREN`, building the 2-tuples tagged
`number` and `name` and the tuples tagged
`unary` and `grouped` as in the source
actions.  The five alternatives have disjoint leading tokens. -/
def parseFactor : Nat → List Token → Option (PyVal × List Token)
  | 0, _ => none
  | fuel + 1, ts =>
    match ts with
    | Token.tNUMBER n :: rest => some (.vtuple [.vstr "number", .vint n], rest)
    | Token.tNAME s :: rest => some (.vtuple [.vstr "name", .vstr s], rest)
    | Token.tPLUS :: rest =>
      match parseFactor fuel rest with
      | none => none
      | some (f, r) => some (.vtuple [.vstr "unary", .vstr "+", f], r)
    | Token.tMINUS :: rest =>
      match parseFactor fuel rest with
      | none => none
      | some (f, r) => some (.vtuple [.vstr "unary", .vstr "-", f], r)
    | Token.tLPAREN :: rest =>
      match parseExpression fuel rest with
      | some (e, Token.tRPAREN :: r2) => some (.vtuple [.vstr "grouped", e], r2)
      | _ => none
    | _ => none

end

/-- The grammar rule `assignment : LET NAME EQUALS expression`, whose
action returns the pair `(name, value)`. -/
def parseAssignment (fuel : Nat) : List Token → Option (String × PyVal × List Token)
  | Token.tLET :: Token.tNAME n :: Token.tEQUALS :: rest =>
    match parseExpression fuel rest with
    | none => none
    | some (e, r) => some (n, e, r)
  | _ => none

/-- The grammar rule `assignment_list : assignment SEMICOLON |
assignment SEMICOLON assignment_list`.  The actions concatenate the
`(name, value)` pairs into one flat tuple, so the result is the flat
list `[name1, value1, name2, value2, ...]` in declaration order.  After
a semicolon the list continues exactly when the next token is `LET`
(`LET` starts an assignment and can never follow a complete
`assignment_list`, which must be followed by an expression). -/
def parseAssignmentList : Nat → List Token → Option (List PyVal × List Token)
  | 0, _ => none
  | fuel + 1, ts =>
    match parseAssignment fuel ts with
    | none => none
    | some (n, e, rest) =>
      match rest with
      | Token.tSEMICOLON :: rest2 =>
        match rest2 with
        | Token.tLET :: _ =>
          match parseAssignmentList fuel rest2 with
          | none => none
          | some (l, r) => some (.vstr n :: e :: l, r)
        | _ => some ([.vstr n, e], rest2)
      | _ => none

/-- The start rule `program : assignment_list expression | expression`,
with the source actions: the first form builds the 3-tuple tagged
`assignments`, the second returns the
expression tree directly.  Only an assignment can start with `LET`, so
the leading token decides the alternative, and the whole token sequence
must be consumed (the yacc parser accepts only at end of input; on a
syntax error `p_error` does not recover and `parser.parse` returns
`None`).  The initial fuel `3 * ts.length + 3` over-approximates the
recursion depth of the descent, which consumes at least one token per
three fuel steps. -/
def parseTokens (ts : List Token) : Option PyVal :=
  match ts with
  | Token.tLET :: _ =>
    match parseAssignmentList (3 * ts.length + 3) ts with
    | none => none
    | some (al, rest) =>
      match parseExpression (3 * ts.length + 3) rest with
      | some (e, []) => some (.vtuple [.vstr "assignments", .vtuple al, e])
      | _ => none
  | _ =>
    match parseExpression (3 * ts.length + 3) ts with
    | some (e, []) => some e
    | _ => none

/-- `parser.parse` applied to a source string: lex (illegal characters
are reported and skipped by the lexer, so only the token stream reaches
the parser), then parse the token sequence. -/
def parse (s : String) : Option PyVal :=
  parseTokens (lexString s).tokens

/-- The flat assignment tuple the grammar actions build from a list of
`(name, value)` pairs: `p_assignment` returns the pair `(name, value)`
and `p_assignment_listmultiple` concatenates such tuples, yielding
`(name1, value1, name2, value2, ...)`. -/
def flattenPairs : List (String × PyVal) → List PyVal
  | [] => []
  | (n, e) :: rest => .vstr n :: e :: flattenPairs rest

/-- Symbol-table construction written from the words of the
specification, for comparison with `populateSymbols` of the source: process the
`(name, value)` assignments strictly in declaration order; evaluate
each value against the table accumulated so far (containing exactly the
previously processed assignments), then bind the name to that result,
overwriting any prior binding of the same name. -/
def populateSymbolsSpec : List (String × PyVal) → SymTable → Except EvalErr SymTable
  | [], table => .ok table
  | (n, e) :: rest, table =>
    match evaluateExpression e table with
    | .error err => .error err
    | .ok v => populateSymbolsSpec rest (dictAssign table (.vstr n) v)

/-- The tree the parser produces for the result expression `(y+3)*x` of
the source text parsed at the bottom of `src/main.py`. -/
def exampleResultExpr : PyVal :=
  .vtuple [.vstr "binop", .vstr "*",
    .vtuple [.vstr "grouped",
      .vtuple [.vstr "binop", .vstr "+",
        .vtuple [.vstr "name", .vstr "y"], .vtuple [.vstr "number", .vint 3]]],
    .vtuple [.vstr "name", .vstr "x"]]

/-- The flat assignment tuple for `let x=2;let y=4+x;`: the two
assignments in declaration order, `x` first, then `y`. -/
def exampleAssignments : List PyVal :=
  [.vstr "x", .vtuple [.vstr "number", .vint 2],
   .vstr "y", .vtuple [.vstr "binop", .vstr "+",
     .vtuple [.vstr "number", .vint 4], .vtuple [.vstr "name", .vstr "x"]]]

/-- The full program tree for `let x=2;let y=4+x;(y+3)*x`. -/
def exampleProgram : PyVal :=
  .vtuple [.vstr "assignments", .vtuple exampleAssignments, exampleResultExpr]

/-- Claim C1: the source text `let x=2;let y=4+x;(y+3)*x` does parse to
a program whose assignment tuple lists `x` then `y` in declaration
order, but evaluating that program does not return the integer 18: the
evaluator has no case for the `*` operator, so it returns the
unevaluated multiplication node itself. -/
theorem c1_pipeline_example :
    parse "let x=2;let y=4+x;(y+3)*x" = some exampleProgram
      ∧ evaluate exampleProgram = .ok exampleResultExpr
      ∧ exampleResultExpr ≠ .vint 18 := by
  decide

/-- Claim C2: `3+4*5` parses to an addition node whose right operand is
a multiplication node, but evaluating it does not produce 23: the
evaluator has no case for `*`, returns that node unchanged, and the
Python `3 + tuple` then raises `TypeError`. -/
theorem c2_star_raises_type_error :
    parse "3+4*5"
        = some (.vtuple [.vstr "binop", .vstr "+",
            .vtuple [.vstr "number", .vint 3],
            .vtuple [.vstr "binop", .vstr "*",
              .vtuple [.vstr "number", .vint 4], .vtuple [.vstr "number", .vint 5]]])
      ∧ evaluate (.vtuple [.vstr "binop", .vstr "+",
            .vtuple [.vstr "number", .vint 3],
            .vtuple [.vstr "binop", .vstr "*",
              .vtuple [.vstr "number", .vint 4], .vtuple [.vstr "number", .vint 5]]])
          = .error .typeError := by
  decide

/-- Claim C3: neither `10/0` nor `10/3` is divided at all: the
evaluator has no case for `/`, so both programs evaluate to the
unevaluated division node itself — `10/0` raises no
division-by-zero error and `10/3` does not return 3. -/
theorem c3_divide_unhandled :
    parse "10/0"
        = some (.vtuple [.vstr "binop", .vstr "/",
            .vtuple [.vstr "number", .vint 10], .vtuple [.vstr "number", .vint 0]])
      ∧ evaluate (.vtuple [.vstr "binop", .vstr "/",
            .vtuple [.vstr "number", .vint 10], .vtuple [.vstr "number", .vint 0]])
          = .ok (.vtuple [.vstr "binop", .vstr "/",
            .vtuple [.vstr "number", .vint 10], .vtuple [.vstr "number", .vint 0]])
      ∧ parse "10/3"
        = some (.vtuple [.vstr "binop", .vstr "/",
            .vtuple [.vstr "number", .vint 10], .vtuple [.vstr "number", .vint 3]])
      ∧ evaluate (.vtuple [.vstr "binop", .vstr "/",
            .vtuple [.vstr "number", .vint 10], .vtuple [.vstr "number", .vint 3]])
          = .ok (.vtuple [.vstr "binop", .vstr "/",
            .vtuple [.vstr "number", .vint 10], .vtuple [.vstr "number", .vint 3]])
      ∧ (PyVal.vtuple [.vstr "binop", .vstr "/",
            .vtuple [.vstr "number", .vint 10], .vtuple [.vstr "number", .vint 3]])
          ≠ .vint 3 := by
  decide

/-- Claim C4: the unary factor rule of the parser builds `unary` nodes
for `-5` and `+5`, but the evaluator has no case for `unary`: both
evaluate to the node itself, not to the (negated) operand value. -/
theorem c4_unary_unhandled :
    parse "-5"
        = some (.vtuple [.vstr "unary", .vstr "-", .vtuple [.vstr "number", .vint 5]])
      ∧ evaluate (.vtuple [.vstr "unary", .vstr "-", .vtuple [.vstr "number", .vint 5]])
          = .ok (.vtuple [.vstr "unary", .vstr "-", .vtuple [.vstr "number", .vint 5]])
      ∧ (PyVal.vtuple [.vstr "unary", .vstr "-", .vtuple [.vstr "number", .vint 5]])
          ≠ .vint (-5)
      ∧ parse "+5"
        = some (.vtuple [.vstr "unary", .vstr "+", .vtuple [.vstr "number", .vint 5]])
      ∧ evaluate (.vtuple [.vstr "unary", .vstr "+", .vtuple [.vstr "number", .vint 5]])
          = .ok (.vtuple [.vstr "unary", .vstr "+", .vtuple [.vstr "number", .vint 5]])
      ∧ (PyVal.vtuple [.vstr "unary", .vstr "+", .vtuple [.vstr "number", .vint 5]])
          ≠ .vint 5 := by
  decide

/-- Claim C5: the parser wraps `(7)` in a `grouped` node,
the inner expression evaluates to 7, but evaluating the `grouped` node
returns the node itself, not the inner value: parentheses are not
semantically transparent in this evaluator. -/
theorem c5_grouped_unhandled :
    parse "(7)"
        = some (.vtuple [.vstr "grouped", .vtuple [.vstr "number", .vint 7]])
      ∧ evaluate (.vtuple [.vstr "grouped", .vtuple [.vstr "number", .vint 7]])
          = .ok (.vtuple [.vstr "grouped", .vtuple [.vstr "number", .vint 7]])
      ∧ evaluateExpression (.vtuple [.vstr "number", .vint 7]) [] = .ok (.vint 7)
      ∧ (Except.ok (PyVal.vtuple [.vstr "grouped", .vtuple [.vstr "number", .vint 7]])
            : Except EvalErr PyVal)
          ≠ .ok (.vint 7) := by
  decide

/-- Claim C8, counterexample: the identifier text `LET` is not the
case-sensitive string `let`, yet the lexer reclassifies it to a `LET`
token rather than leaving it a `NAME` token. -/
theorem c8_counterexample_uppercase :
    (lexString "LET").tokens = [Token.tLET]
      ∧ "LET" ≠ "let"
      ∧ Token.tLET ≠ Token.tNAME "LET" := by
  decide

/-- Claim C8, amended: an identifier run is reclassified from `NAME` to
`LET` exactly when the matched text is `let` or `LET`; every other
text (including other casings such as `Let`) stays a `NAME` token with
the matched text as its value. -/
theorem c8_let_reclassification (s : String) :
    (t_NAME s = Token.tLET ↔ s = "let" ∨ s = "LET")
      ∧ (t_NAME s = Token.tLET ∨ t_NAME s = Token.tNAME s) := by
  by_cases h : s = "let" ∨ s = "LET" <;> simp [t_NAME, h]

/-- The flat tuple built by the assignment-list actions coincides,
entry for entry, with processing the `(name, value)` pairs it came
from: the even/odd traversal of `populateSymbols` is the pairwise fold
described by the specification. -/
theorem populateSymbolsLoop_flatten (pairs : List (String × PyVal)) :
    ∀ (table : SymTable),
      populateSymbolsLoop (PyVal.vtuple (flattenPairs pairs)) table
        = populateSymbolsSpec pairs table := by
  induction pairs with
  | nil => intro table; rfl
  | cons p rest ih =>
    obtain ⟨n, e⟩ := p
    intro table
    simp only [flattenPairs, PyVal.vtuple, populateSymbolsLoop, populateSymbolsSpec]
    cases evaluateExpression e table with
    | error err => rfl
    | ok v => exact ih _

/-- Claim C6: evaluating a program with an assignment tuple processes
the assignments strictly in declaration order — each value expression
is evaluated against the table holding exactly the bindings of the
previously processed assignments, the name is then bound to that result
— and the trailing result expression is evaluated against the table
holding all assignments; binding a name overwrites any prior binding of
the same key, whatever table it occurs in. -/
theorem c6_assignment_table_order :
    (∀ (pairs : List (String × PyVal)) (result : PyVal),
        evaluate (.vtuple [.vstr "assignments", .vtuple (flattenPairs pairs), result])
          = match populateSymbolsSpec pairs [] with
            | .error e => .error e
            | .ok table => evaluateExpression result table)
      ∧ (∀ (table : SymTable) (key v : PyVal),
          dictLookup (dictAssign table key v) key = some v) := by
  constructor
  · intro pairs result
    simp only [PyVal.vtuple, evaluate, populateSymbols]
    rw [populateSymbolsLoop_flatten]
  · intro table key v
    induction table with
    | nil => simp [dictAssign, dictLookup]
    | cons kv rest ih =>
      obtain ⟨k, w⟩ := kv
      by_cases h : k = key
      · simp [dictAssign, dictLookup, h]
      · simp [dictAssign, dictLookup, h, ih]

/-- Claim C7: evaluating a `name` node fails with the `NameError`
carrying the message that identifies the missing name when the
identifier is absent from the symbol table, and returns the bound value
when it is present; in particular `x+1` with no prior assignment fails
with the undefined-name error for `x`. -/
theorem c7_name_reference :
    (∀ (st : SymTable) (n : String),
        dictLookup st (.vstr n) = none →
          evaluateExpression (.vtuple [.vstr "name", .vstr n]) st
            = .error (.nameError (nameErrorMessage (.vstr n))))
      ∧ (∀ (st : SymTable) (n : String) (v : PyVal),
          dictLookup st (.vstr n) = some v →
            evaluateExpression (.vtuple [.vstr "name", .vstr n]) st = .ok v)
      ∧ (∀ (n : String), ∃ pre post, nameErrorMessage (.vstr n) = pre ++ n ++ post)
      ∧ parse "x+1" = some (.vtuple [.vstr "binop", .vstr "+",
          .vtuple [.vstr "name", .vstr "x"], .vtuple [.vstr "number", .vint 1]])
      ∧ evaluate (.vtuple [.vstr "binop", .vstr "+",
          .vtuple [.vstr "name", .vstr "x"], .vtuple [.vstr "number", .vint 1]])
          = .error (.nameError (nameErrorMessage (.vstr "x"))) := by
  refine ⟨?_, ?_, ?_, by decide, by decide⟩
  · intro st n h
    simp [PyVal.vtuple, evaluateExpression, h]
  · intro st n v h
    simp [PyVal.vtuple, evaluateExpression, h]
  · intro n
    exact ⟨"Error: Symbol \x27", "\x27 has not been assigned a value", rfl⟩

/-- The general clauses of the claim C7 theorem, instantiated at the
name `x` with the empty table and with a table binding `x` to 5. -/
theorem c7_name_reference_witness :
    evaluateExpression (.vtuple [.vstr "name", .vstr "x"]) []
        = .error (.nameError (nameErrorMessage (.vstr "x")))
      ∧ evaluateExpression (.vtuple [.vstr "name", .vstr "x"])
          [(PyVal.vstr "x", PyVal.vint 5)] = .ok (.vint 5) :=
  ⟨c7_name_reference.1 [] "x" rfl,
    c7_name_reference.2.1 [(PyVal.vstr "x", PyVal.vint 5)] "x" (PyVal.vint 5) rfl⟩

/-- Claim C9: when the lexer meets a character matched by no rule it
reports that character as illegal, skips exactly that one character,
and resumes lexing the remaining input — the tokens of the rest are
still produced; in particular `let x=3;#5` reports `#` and still emits
the final `5` as a `NUMBER` token. -/
theorem c9_illegal_character_skip :
    (∀ (fuel : Nat) (c : Char) (rest : List Char),
        illegalChar c = true →
          lexLoop (fuel + 1) (c :: rest)
            = ⟨(lexLoop fuel rest).tokens, c :: (lexLoop fuel rest).errors⟩)
      ∧ (lexString "let x=3;#5").tokens
          = [Token.tLET, Token.tNAME "x", Token.tEQUALS, Token.tNUMBER 3,
             Token.tSEMICOLON, Token.tNUMBER 5]
      ∧ (lexString "let x=3;#5").errors = ['#'] := by
  refine ⟨?_, by decide, by decide⟩
  intro fuel c rest h
  simp only [illegalChar, Bool.and_eq_true, Bool.not_eq_true'] at h
  obtain ⟨⟨⟨⟨h1, h2⟩, h3⟩, h4⟩, h5⟩ := h
  rw [Option.isNone_iff_eq_none] at h5
  simp [lexLoop, h1, h2, h3, h4, h5]

/-- The general clause of the claim C9 theorem, instantiated at the
character which the concrete example reports. -/
theorem c9_illegal_character_skip_witness :
    illegalChar '#' = true
      ∧ lexLoop 1 ['#'] = ⟨(lexLoop 0 []).tokens, '#' :: (lexLoop 0 []).errors⟩ :=
  ⟨by decide, c9_illegal_character_skip.1 0 '#' [] (by decide)⟩

/-- The last element of a list is a member of it. -/
theorem lastMem {a : Type} : ∀ (l : List a) (x : a), l.getLast? = some x → x ∈ l
  | [y], x, h => by
    simp [List.getLast?] at h
    simp [h]
  | y :: z :: zs, x, h => by
    rw [List.getLast?_cons_cons] at h
    exact List.mem_cons_of_mem y (lastMem (z :: zs) x h)

/-- The factor production fails on an empty token stream. -/
theorem parseFactor_nil : ∀ (fuel : Nat), parseFactor fuel [] = none := by
  intro fuel
  cases fuel <;> rfl

/-- The term production fails on an empty token stream. -/
theorem parseTerm_nil : ∀ (fuel : Nat), parseTerm fuel [] = none := by
  intro fuel
  cases fuel with
  | zero => rfl
  | succ n => rw [parseTerm, parseFactor_nil]

/-- The expression production fails on an empty token stream. -/
theorem parseExpression_nil : ∀ (fuel : Nat), parseExpression fuel [] = none := by
  intro fuel
  cases fuel with
  | zero => rfl
  | succ n => rw [parseExpression, parseTerm_nil]

/-- The expression-level productions consume a prefix of the token
stream that never contains a `SEMICOLON` token: semicolons only
terminate assignments, never occur inside a factor, term or
expression. -/
theorem parsers_consume : ∀ (fuel : Nat),
    (∀ (ts : List Token) (a : PyVal) (rest : List Token),
        parseFactor fuel ts = some (a, rest) →
          ∃ c, ts = c ++ rest ∧ Token.tSEMICOLON ∉ c)
      ∧ (∀ (ts : List Token) (a : PyVal) (rest : List Token),
        parseTerm fuel ts = some (a, rest) →
          ∃ c, ts = c ++ rest ∧ Token.tSEMICOLON ∉ c)
      ∧ (∀ (ts : List Token) (a : PyVal) (rest : List Token),
        parseExpression fuel ts = some (a, rest) →
          ∃ c, ts = c ++ rest ∧ Token.tSEMICOLON ∉ c) := by
  intro fuel
  induction fuel with
  | zero =>
    refine ⟨?_, ?_, ?_⟩ <;> intro ts a rest h <;>
      simp [parseFactor, parseTerm, parseExpression] at h
  | succ fuel ih =>
    obtain ⟨ihF, ihT, ihE⟩ := ih
    have factorStep : ∀ (ts : List Token) (a : PyVal) (rest : List Token),
        parseFactor (fuel + 1) ts = some (a, rest) →
          ∃ c, ts = c ++ rest ∧ Token.tSEMICOLON ∉ c := by
      intro ts a rest h
      cases ts with
      | nil => simp [parseFactor] at h
      | cons t ts2 =>
        cases t
        case tNUMBER n =>
          simp only [parseFactor, Option.some.injEq, Prod.mk.injEq] at h
          obtain ⟨ha, hr⟩ := h
          exact ⟨[Token.tNUMBER n], by simp [← hr], by simp⟩
        case tNAME s =>
          simp only [parseFactor, Option.some.injEq, Prod.mk.injEq] at h
          obtain ⟨ha, hr⟩ := h
          exact ⟨[Token.tNAME s], by simp [← hr], by simp⟩
        case tPLUS =>
          simp only [parseFactor] at h
          cases hf : parseFactor fuel ts2 with
          | none => rw [hf] at h; simp at h
          | some pr =>
            obtain ⟨f, r⟩ := pr
            rw [hf] at h
            simp only [Option.some.injEq, Prod.mk.injEq] at h
            obtain ⟨ha, hr⟩ := h
            obtain ⟨c, hc, hn⟩ := ihF ts2 f r hf
            exact ⟨Token.tPLUS :: c, by simp [hc, hr], by simp [hn]⟩
        case tMINUS =>
          simp only [parseFactor] at h
          cases hf : parseFactor fuel ts2 with
          | none => rw [hf] at h; simp at h
          | some pr =>
            obtain ⟨f, r⟩ := pr
            rw [hf] at h
            simp only [Option.some.injEq, Prod.mk.injEq] at h
            obtain ⟨ha, hr⟩ := h
            obtain ⟨c, hc, hn⟩ := ihF ts2 f r hf
            exact ⟨Token.tMINUS :: c, by simp [hc, hr], by simp [hn]⟩
        case tLPAREN =>
          simp only [parseFactor] at h
          cases hf : parseExpression fuel ts2 with
          | none => rw [hf] at h; simp at h
          | some pr =>
            obtain ⟨e, r⟩ := pr
            rw [hf] at h
            cases r with
            | nil => simp at h
            | cons rt r2 =>
              cases rt
              case tRPAREN =>
                simp only [Option.some.injEq, Prod.mk.injEq] at h
                obtain ⟨ha, hr⟩ := h
                obtain ⟨c, hc, hn⟩ := ihE ts2 e (Token.tRPAREN :: r2) hf
                refine ⟨Token.tLPAREN :: (c ++ [Token.tRPAREN]), ?_, ?_⟩
                · simp [hc, hr]
                · simp [hn]
              all_goals simp at h
        all_goals simp [parseFactor] at h
    have termStep : ∀ (ts : List Token) (a : PyVal) (rest : List Token),
        parseTerm (fuel + 1) ts = some (a, rest) →
          ∃ c, ts = c ++ rest ∧ Token.tSEMICOLON ∉ c := by
      intro ts a rest h
      simp only [parseTerm] at h
      cases hf : parseFactor fuel ts with
      | none => rw [hf] at h; simp at h
      | some pr =>
        obtain ⟨f1, rest1⟩ := pr
        rw [hf] at h
        obtain ⟨c1, hc1, hn1⟩ := ihF ts f1 rest1 hf
        cases rest1 with
        | nil =>
          simp only [Option.some.injEq, Prod.mk.injEq] at h
          obtain ⟨ha, hr⟩ := h
          exact ⟨c1, by simp [hc1, ← hr], hn1⟩
        | cons rt rest2 =>
          dsimp only at h
          cases rt
          case tTIMES =>
            dsimp only at h
            cases hf2 : parseFactor fuel rest2 with
            | none => rw [hf2] at h; simp at h
            | some pr2 =>
              obtain ⟨f2, rest3⟩ := pr2
              rw [hf2] at h
              simp only [Option.some.injEq, Prod.mk.injEq] at h
              obtain ⟨ha, hr⟩ := h
              obtain ⟨c2, hc2, hn2⟩ := ihF rest2 f2 rest3 hf2
              refine ⟨c1 ++ Token.tTIMES :: c2, ?_, ?_⟩
              · simp [hc1, hc2, hr]
              · simp [hn1, hn2]
          case tDIVIDE =>
            dsimp only at h
            cases hf2 : parseFactor fuel rest2 with
            | none => rw [hf2] at h; simp at h
            | some pr2 =>
              obtain ⟨f2, rest3⟩ := pr2
              rw [hf2] at h
              simp only [Option.some.injEq, Prod.mk.injEq] at h
              obtain ⟨ha, hr⟩ := h
              obtain ⟨c2, hc2, hn2⟩ := ihF rest2 f2 rest3 hf2
              refine ⟨c1 ++ Token.tDIVIDE :: c2, ?_, ?_⟩
              · simp [hc1, hc2, hr]
              · simp [hn1, hn2]
          all_goals
            simp only [Option.some.injEq, Prod.mk.injEq] at h
            obtain ⟨ha, hr⟩ := h
            exact ⟨c1, by simp [hc1, ← hr], hn1⟩
    refine ⟨factorStep, termStep, ?_⟩
    intro ts a rest h
    simp only [parseExpression] at h
    cases ht : parseTerm fuel ts with
    | none => rw [ht] at h; simp at h
    | some pr =>
      obtain ⟨t1, rest1⟩ := pr
      rw [ht] at h
      obtain ⟨c1, hc1, hn1⟩ := ihT ts t1 rest1 ht
      cases rest1 with
      | nil =>
        simp only [Option.some.injEq, Prod.mk.injEq] at h
        obtain ⟨ha, hr⟩ := h
        exact ⟨c1, by simp [hc1, ← hr], hn1⟩
      | cons rt rest2 =>
        dsimp only at h
        cases rt
        case tPLUS =>
          dsimp only at h
          cases ht2 : parseTerm fuel rest2 with
          | none => rw [ht2] at h; simp at h
          | some pr2 =>
            obtain ⟨t2, rest3⟩ := pr2
            rw [ht2] at h
            simp only [Option.some.injEq, Prod.mk.injEq] at h
            obtain ⟨ha, hr⟩ := h
            obtain ⟨c2, hc2, hn2⟩ := ihT rest2 t2 rest3 ht2
            refine ⟨c1 ++ Token.tPLUS :: c2, ?_, ?_⟩
            · simp [hc1, hc2, hr]
            · simp [hn1, hn2]
        case tMINUS =>
          dsimp only at h
          cases ht2 : parseTerm fuel rest2 with
          | none => rw [ht2] at h; simp at h
          | some pr2 =>
            obtain ⟨t2, rest3⟩ := pr2
            rw [ht2] at h
            simp only [Option.some.injEq, Prod.mk.injEq] at h
            obtain ⟨ha, hr⟩ := h
            obtain ⟨c2, hc2, hn2⟩ := ihT rest2 t2 rest3 ht2
            refine ⟨c1 ++ Token.tMINUS :: c2, ?_, ?_⟩
            · simp [hc1, hc2, hr]
            · simp [hn1, hn2]
        all_goals
          simp only [Option.some.injEq, Prod.mk.injEq] at h
          obtain ⟨ha, hr⟩ := h
          exact ⟨c1, by simp [hc1, ← hr], hn1⟩

/-- A successful assignment parse consumes a prefix of the tokens. -/
theorem parseAssignment_consumed :
    ∀ (fuel : Nat) (ts : List Token) (n : String) (e : PyVal) (rest : List Token),
      parseAssignment fuel ts = some (n, e, rest) → ∃ c, ts = c ++ rest := by
  intro fuel ts n e rest h
  cases ts with
  | nil => simp [parseAssignment] at h
  | cons t1 r1 =>
    cases t1
    case tLET =>
      cases r1 with
      | nil => simp [parseAssignment] at h
      | cons t2 r2 =>
        cases t2
        case tNAME s =>
          cases r2 with
          | nil => simp [parseAssignment] at h
          | cons t3 r3 =>
            cases t3
            case tEQUALS =>
              simp only [parseAssignment] at h
              cases hE : parseExpression fuel r3 with
              | none => rw [hE] at h; simp at h
              | some pr =>
                obtain ⟨ex, r4⟩ := pr
                rw [hE] at h
                simp only [Option.some.injEq, Prod.mk.injEq] at h
                obtain ⟨hn2, he2, hr2⟩ := h
                obtain ⟨c, hc, _⟩ := (parsers_consume fuel).2.2 r3 ex r4 hE
                exact ⟨Token.tLET :: Token.tNAME s :: Token.tEQUALS :: c,
                  by simp [hc, hr2]⟩
            all_goals simp [parseAssignment] at h
        all_goals simp [parseAssignment] at h
    all_goals simp [parseAssignment] at h

/-- A successful assignment-list parse consumes a prefix of the
tokens. -/
theorem parseAssignmentList_consumed :
    ∀ (fuel : Nat) (ts : List Token) (al : List PyVal) (rest : List Token),
      parseAssignmentList fuel ts = some (al, rest) → ∃ c, ts = c ++ rest := by
  intro fuel
  induction fuel with
  | zero => intro ts al rest h; simp [parseAssignmentList] at h
  | succ fuel ih =>
    intro ts al rest h
    simp only [parseAssignmentList] at h
    cases hA : parseAssignment fuel ts with
    | none => rw [hA] at h; simp at h
    | some pr =>
      obtain ⟨n, e, rest1⟩ := pr
      rw [hA] at h
      obtain ⟨c1, hc1⟩ := parseAssignment_consumed fuel ts n e rest1 hA
      cases rest1 with
      | nil => simp at h
      | cons rt rest2 =>
        try dsimp only at h
        cases rt
        case tSEMICOLON =>
          try dsimp only at h
          cases rest2 with
          | nil =>
            try dsimp only at h
            simp only [Option.some.injEq, Prod.mk.injEq] at h
            obtain ⟨_, hr⟩ := h
            exact ⟨c1 ++ [Token.tSEMICOLON], by simp [hc1, ← hr]⟩
          | cons rt2 rest3 =>
            try dsimp only at h
            cases rt2
            case tLET =>
              try dsimp only at h
              cases hL : parseAssignmentList fuel (Token.tLET :: rest3) with
              | none => rw [hL] at h; simp at h
              | some pr2 =>
                obtain ⟨al2, r2⟩ := pr2
                rw [hL] at h
                simp only [Option.some.injEq, Prod.mk.injEq] at h
                obtain ⟨_, hr⟩ := h
                obtain ⟨c2, hc2⟩ := ih (Token.tLET :: rest3) al2 r2 hL
                exact ⟨c1 ++ Token.tSEMICOLON :: c2, by simp [hc1, hc2, hr]⟩
            all_goals
              try dsimp only at h
              simp only [Option.some.injEq, Prod.mk.injEq] at h
              obtain ⟨_, hr⟩ := h
              exact ⟨c1 ++ [Token.tSEMICOLON], by simp [hc1, ← hr]⟩
        all_goals
          try dsimp only at h
          simp at h

/-- Claim C10: a token sequence that ends with a semicolon — as any
program whose final item is a trailing assignment does — is a syntax
error: the parser returns no program tree, because the grammar demands
the input end with an expression and no expression production ever
consumes a `SEMICOLON`.  In particular the spec example with a trailing
`let z=3;` fails to parse. -/
theorem c10_trailing_assignment :
    (∀ (ts : List Token),
        ts.getLast? = some Token.tSEMICOLON → parseTokens ts = none)
      ∧ parse "let x=3; let y=4; 3+x*y;let z=3;" = none := by
  refine ⟨?_, by decide⟩
  intro ts hlast
  have disjF : ∀ (F : Nat) (u : List Token), u.getLast? = some Token.tSEMICOLON →
      parseExpression F u = none
        ∨ ∃ e r2, parseExpression F u = some (e, r2) ∧ r2 ≠ [] := by
    intro F u hu
    cases hE : parseExpression F u with
    | none => exact Or.inl rfl
    | some pr =>
      obtain ⟨e, r2⟩ := pr
      refine Or.inr ⟨e, r2, rfl, ?_⟩
      intro hr2
      subst hr2
      obtain ⟨c2, hc2, hn2⟩ := (parsers_consume F).2.2 u e [] hE
      simp only [List.append_nil] at hc2
      exact hn2 (hc2 ▸ lastMem u _ hu)
  simp only [parseTokens]
  cases ts with
  | nil => simp at hlast
  | cons t ts2 =>
    cases t
    case tLET =>
      dsimp only
      simp only [List.length_cons]
      cases hA : parseAssignmentList (3 * (ts2.length + 1) + 3)
          (Token.tLET :: ts2) with
      | none => simp [hA]
      | some pr =>
        obtain ⟨al, rest⟩ := pr
        obtain ⟨c1, hc1⟩ := parseAssignmentList_consumed _ _ _ _ hA
        cases rest with
        | nil => simp [hA, parseExpression_nil]
        | cons r0 rest2 =>
          have hu : (r0 :: rest2).getLast? = some Token.tSEMICOLON := by
            rw [hc1] at hlast
            rwa [List.getLast?_append_of_ne_nil c1 (by simp)] at hlast
          rcases disjF (3 * (ts2.length + 1) + 3) (r0 :: rest2) hu with
            hE | ⟨e, r2, hE, hr2⟩
          · simp [hA, hE]
          · cases r2 with
            | nil => exact absurd rfl hr2
            | cons a b => simp [hA, hE]
    all_goals
      dsimp only
      simp only [List.length_cons]
      rcases disjF (3 * (ts2.length + 1) + 3) _ hlast with hE | ⟨e, r2, hE, hr2⟩
      · simp [hE]
      · cases r2 with
        | nil => exact absurd rfl hr2
        | cons a b => simp [hE]

/-- The general clause of the claim C10 theorem, instantiated at the
one-token sequence holding a single semicolon. -/
theorem c10_trailing_assignment_witness :
    ([Token.tSEMICOLON].getLast? = some Token.tSEMICOLON)
      ∧ parseTokens [Token.tSEMICOLON] = none :=
  ⟨by decide, c10_trailing_assignment.1 [Token.tSEMICOLON] (by decide)⟩
